import Mathlib

/-!
# Page analysis engine of `my-crawler-backend`

A shallow embedding of `services/crawler.go` (`ProcessURL`, `CrawlURL`,
`absoluteURL`), `controllers/url_analysis_controller.go`
(`CreateURLAnalysis`, `RerunURLAnalyses`) and `models/url_analysis.go`
(`URLAnalysisResult`).

Modelling conventions.

* Go strings are Lean strings; `strings.HasPrefix` and `strings.Contains` are
  the list-level prefix and infix tests on the characters.
* Library code that is not part of the repository (`net/url`,
  `strings.ToLower`, `encoding/json`) is a parameter, the record `Lib`.
* The network is a parameter, the record `Net`: the outcome of the primary
  `http.Get`, the outcome of every `http.Head` probe, and the interleaving of
  the probe goroutines with the loop that drains `errorLinkChan`.
* A parsed document is the tree of `html.Node`s rooted at the document node;
  `goquery` selections are lists of nodes in document order.
* The database is a list of rows with an auto-increment counter.  Database
  faults other than "record not found" are not modelled, and neither are the
  timestamps of `gorm.Model`.
* `go f(x)` is recorded as a dispatched call; the system state keeps the
  dispatched calls that have not run yet.
-/

namespace Crawler

/-! ## Strings -/

/-- Go `strings.HasPrefix(s, pre)`. -/
def HasPrefix (s pre : String) : Bool :=
  pre.data.isPrefixOf s.data

/-- Go `strings.Contains(s, substr)`. -/
def Contains (s substr : String) : Bool :=
  s.data.tails.any (fun t => substr.data.isPrefixOf t)

/-! ## Parsed documents (`golang.org/x/net/html`) -/

/-- The `html.NodeType` constants. -/
inductive NodeType where
  | ErrorNode
  | TextNode
  | DocumentNode
  | ElementNode
  | CommentNode
  | DoctypeNode
  deriving DecidableEq, Repr

/-- An `html.Attribute` (the namespace is not inspected by the program). -/
structure Attribute where
  Key : String
  Val : String
  deriving DecidableEq, Repr

/-- An `html.Node` with its children in sibling order. -/
inductive Node where
  | mk (Kind : NodeType) (Data : String) (Attr : List Attribute) (children : List Node)

namespace Node

/-- The field `Type` of `html.Node`. -/
def Kind : Node → NodeType
  | mk k _ _ _ => k

/-- The field `Data` of `html.Node`: the tag name of an element, the content
of a text or comment node, the name of a doctype. -/
def Data : Node → String
  | mk _ d _ _ => d

/-- The field `Attr` of `html.Node`. -/
def Attr : Node → List Attribute
  | mk _ _ a _ => a

/-- The children, from `FirstChild` along `NextSibling`. -/
def children : Node → List Node
  | mk _ _ _ c => c

mutual
/-- The node followed by all its descendants, in document (pre-)order. -/
def subtree : Node → List Node
  | mk k d a cs => mk k d a cs :: subtreeList cs
/-- The subtrees of a list of siblings, in document order. -/
def subtreeList : List Node → List Node
  | [] => []
  | c :: cs => subtree c ++ subtreeList cs
end

/-- The value of the first attribute with the given key (`getAttributeValue`
of goquery, behind `Selection.Attr`): `none` is `exists = false`. -/
def attrVal (n : Node) (key : String) : Option String :=
  (n.Attr.find? (fun a => a.Key == key)).map (fun a => a.Val)

/-- The text of a node as `Selection.Text` collects it: the `Data` of every
text node of the subtree, in document order. -/
def text (n : Node) : String :=
  String.join ((n.subtree.filter (fun m => m.Kind == NodeType.TextNode)).map Node.Data)

end Node

/-! ## goquery / cascadia -/

/-- The selectors the program uses. -/
inductive Selector where
  /-- A type selector such as `"html"`, `"title"`, `"h1"`. -/
  | tag (name : String)
  /-- A type selector with an attribute-presence test, `"a[href]"`. -/
  | tagAttr (name key : String)
  /-- A type selector with an attribute-equality test, the selector for
  `input` elements whose `type` is `password`. -/
  | tagAttrEq (name key val : String)

/-- Does the selector match the node (cascadia `Match`). -/
def Selector.isMatch : Selector → Node → Bool
  | .tag name, n => n.Kind == NodeType.ElementNode && n.Data == name
  | .tagAttr name key, n =>
      n.Kind == NodeType.ElementNode && n.Data == name && n.Attr.any (fun a => a.Key == key)
  | .tagAttrEq name key val, n =>
      n.Kind == NodeType.ElementNode && n.Data == name &&
        n.Attr.any (fun a => a.Key == key && a.Val == val)

/-- A goquery `Selection`: the matched nodes, in document order. -/
abbrev Selection := List Node

/-- The method `doc.Find(selector)`: every descendant element of the document
node that matches, in document order. -/
def Find (sel : Selector) (doc : Node) : Selection :=
  ((doc.children.filter (fun c => c.Kind == NodeType.ElementNode)).flatMap Node.subtree).filter
    sel.isMatch

/-- The method `Selection.First`. -/
def Selection.First (s : Selection) : Selection := s.take 1

/-- The method `Selection.Length`. -/
def Selection.Length (s : Selection) : Nat := s.length

/-- The method `Selection.Text`: the combined text of every matched element. -/
def Selection.Text (s : Selection) : String := String.join (s.map Node.text)

/-! ## Library and network parameters -/

/-- A broken link as reported by `CrawlURL`. -/
structure BrokenLink where
  URL : String
  StatusCode : Int
  deriving DecidableEq, Repr

/-- The library functions the program calls, over the type `U` of parsed
URLs (`*url.URL`). -/
structure Lib (U : Type) where
  /-- The function `url.Parse`; `none` is a parse error. -/
  urlParse : String → Option U
  /-- The method `base.ResolveReference(rel)`. -/
  ResolveReference : U → U → U
  /-- The method `(*url.URL).String`. -/
  urlString : U → String
  /-- The function `strings.ToLower`. -/
  ToLower : String → String
  /-- The function `json.Marshal` on a slice of broken links, as a string. -/
  jsonMarshal : List BrokenLink → String

/-- The result of `goquery.NewDocumentFromReader` on a response body. -/
inductive ParseOutcome where
  | failed (err : String)
  | document (doc : Node)

/-- The result of `http.Get`. -/
inductive GetOutcome where
  | failed (err : String)
  | response (StatusCode : Int) (Status : String) (body : ParseOutcome)

/-- The result of `http.Head`. -/
inductive HeadOutcome where
  | failed (err : String)
  | response (StatusCode : Int)

/-- The network as one crawl sees it. -/
structure Net where
  /-- The outcome of `http.Get(url)`. -/
  Get : String → GetOutcome
  /-- The outcome of `http.Head(link)` in the probe launched `i`-th. -/
  Head : Nat → String → HeadOutcome
  /-- The interleaving of the probe goroutines and the draining loop. -/
  sched : List Nat

/-! ## `services/crawler.go`: `CrawlURL` -/

/-- The struct `CrawlResult`; the default value is the zero value
`&CrawlResult{}`. -/
structure CrawlResult where
  HTMLVersion : String := ""
  PageTitle : String := ""
  H1Count : Nat := 0
  H2Count : Nat := 0
  H3Count : Nat := 0
  H4Count : Nat := 0
  H5Count : Nat := 0
  H6Count : Nat := 0
  InternalLinks : Nat := 0
  ExternalLinks : Nat := 0
  InaccessibleLinks : Nat := 0
  BrokenLinks : List BrokenLink := []
  HasLoginForm : Bool := false
  deriving DecidableEq, Repr

/-- The function `absoluteURL(baseURL, relativeURL)`. -/
def absoluteURL {U : Type} (lib : Lib U) (baseURL relativeURL : String) : String :=
  match lib.urlParse baseURL with
  | none => relativeURL
  | some base =>
    match lib.urlParse relativeURL with
    | none => relativeURL
    | some rel => lib.urlString (lib.ResolveReference base rel)

/-- The document-type label computed from `doc.Nodes[0].FirstChild.Data`
(lines 95-104).  A document node without children has no `html` element
below it, so the last case of the inner match is never taken. -/
def htmlVersion {U : Type} (lib : Lib U) (doc : Node) : String :=
  if (Find (.tag "html") doc).First.Length > 0 then
    match doc.children with
    | firstChild :: _ =>
      if Contains (lib.ToLower firstChild.Data) "html public" then "HTML 4.01 or XHTML"
      else if Contains (lib.ToLower firstChild.Data) "html" then "HTML5"
      else "Unknown"
    | [] => ""
  else ""

/-- What the callback of `doc.Find("a[href]").Each` has done so far: the two
counters and the links for which a probe goroutine was launched, in launch
order. -/
structure LinkScan where
  InternalLinks : Nat := 0
  ExternalLinks : Nat := 0
  launched : List String := []
  deriving DecidableEq, Repr

/-- The callback of `doc.Find("a[href]").Each` on one matched element
(lines 122-150), up to the launch of the probe. -/
def visitAnchor {U : Type} (lib : Lib U) (url : String) (acc : LinkScan) (s : Node) :
    LinkScan :=
  match s.attrVal "href" with
  | none => acc
  | some href =>
    if href == "" || HasPrefix href "#" || HasPrefix href "javascript:" then acc
    else
      let fullURL := absoluteURL lib url href
      if HasPrefix fullURL url then
        { acc with InternalLinks := acc.InternalLinks + 1, launched := acc.launched ++ [fullURL] }
      else
        { acc with ExternalLinks := acc.ExternalLinks + 1, launched := acc.launched ++ [fullURL] }

/-- The loop `doc.Find("a[href]").Each(...)`. -/
def scanLinks {U : Type} (lib : Lib U) (url : String) (doc : Node) : LinkScan :=
  (Find (.tagAttr "a" "href") doc).foldl (visitAnchor lib url) {}

/-- The body of one probe goroutine (lines 137-149): the value it sends on
`errorLinkChan`, if any. -/
def probe (net : Net) (i : Nat) (link : String) : Option BrokenLink :=
  match net.Head i link with
  | .failed _ => some { URL := link, StatusCode := 0 }
  | .response StatusCode =>
    if StatusCode ≥ 400 then some { URL := link, StatusCode := StatusCode } else none

/-- The values the probe goroutines have to send, in launch order. -/
def probeAll (net : Net) (links : List String) : List BrokenLink :=
  links.enum.filterMap (fun p => probe net p.1 p.2)

/-- The capacity of `errorLinkChan`. -/
def errorLinkChanCap : Nat := 100

/-- The fan-in of lines 152-160: the goroutines that still have a value to
send, the buffer of `errorLinkChan`, and what the draining loop has
accumulated. -/
structure FanIn where
  senders : List BrokenLink
  buf : List BrokenLink := []
  InaccessibleLinks : Nat := 0
  BrokenLinks : List BrokenLink := []
  deriving DecidableEq, Repr

/-- A step of the draining loop: it receives the oldest buffered value; with
an empty buffer it is the first waiting goroutine that sends.  With nothing
left the channel is closed and the loop is over. -/
def FanIn.recv (st : FanIn) : FanIn :=
  match st.buf with
  | r :: rest =>
    { st with buf := rest, InaccessibleLinks := st.InaccessibleLinks + 1,
              BrokenLinks := st.BrokenLinks ++ [r] }
  | [] =>
    match st.senders with
    | b :: rest => { st with senders := rest, buf := [b] }
    | [] => st

/-- One scheduling step.  The choice `k` lets the `k`-th waiting goroutine
send when there is one and the buffer has room; otherwise the draining loop
takes its step. -/
def FanIn.step (k : Nat) (st : FanIn) : FanIn :=
  match st.senders[k]?, decide (st.buf.length < errorLinkChanCap) with
  | some b, true => { st with senders := st.senders.eraseIdx k, buf := st.buf ++ [b] }
  | _, _ => st.recv

/-- Run `fuel` scheduling steps, the choices taken from `sched` (and `0` once
it is used up). -/
def FanIn.run : Nat → List Nat → FanIn → FanIn
  | 0, _, st => st
  | fuel + 1, [], st => FanIn.run fuel [] (st.step 0)
  | fuel + 1, k :: sched, st => FanIn.run fuel sched (st.step k)

/-- The draining loop run to the close of the channel: every value is sent
once and received once, which takes two steps a value. -/
def drain (sched : List Nat) (senders : List BrokenLink) : FanIn :=
  FanIn.run (2 * senders.length) sched { senders := senders }

/-- The function `CrawlURL(url)`. -/
def CrawlURL {U : Type} (lib : Lib U) (net : Net) (url : String) : Except String CrawlResult :=
  match net.Get url with
  | .failed err => .error ("failed to fetch URL: " ++ err)
  | .response StatusCode Status body =>
    if StatusCode ≠ 200 then
      .error ("non-OK status code: " ++ toString StatusCode ++ " " ++ Status)
    else
      match body with
      | .failed err => .error ("failed to parse HTML: " ++ err)
      | .document doc =>
        let links := scanLinks lib url doc
        let fan := drain net.sched (probeAll net links.launched)
        .ok {
          HTMLVersion := htmlVersion lib doc
          PageTitle := (Find (.tag "title") doc).Text
          H1Count := (Find (.tag "h1") doc).Length
          H2Count := (Find (.tag "h2") doc).Length
          H3Count := (Find (.tag "h3") doc).Length
          H4Count := (Find (.tag "h4") doc).Length
          H5Count := (Find (.tag "h5") doc).Length
          H6Count := (Find (.tag "h6") doc).Length
          InternalLinks := links.InternalLinks
          ExternalLinks := links.ExternalLinks
          InaccessibleLinks := fan.InaccessibleLinks
          BrokenLinks := fan.BrokenLinks
          HasLoginForm := decide ((Find (.tagAttrEq "input" "type" "password") doc).Length > 0) }

/-! ## `models/url_analysis.go` and the database -/

/-- The model `URLAnalysisResult`, with the primary key `ID` of the embedded
`gorm.Model`; the default value is the zero value of the struct. -/
structure URLAnalysisResult where
  ID : Nat := 0
  URL : String := ""
  HTMLVersion : String := ""
  PageTitle : String := ""
  H1Count : Nat := 0
  H2Count : Nat := 0
  H3Count : Nat := 0
  H4Count : Nat := 0
  H5Count : Nat := 0
  H6Count : Nat := 0
  InternalLinks : Nat := 0
  ExternalLinks : Nat := 0
  InaccessibleLinks : Nat := 0
  InaccessibleLinkDetails : String := ""
  HasLoginForm : Bool := false
  Status : String := ""
  ErrorMessage : String := ""
  deriving DecidableEq, Repr

/-- The table behind `initializers.DB`: the rows and the next auto-increment
key. -/
structure DB where
  rows : List URLAnalysisResult := []
  nextID : Nat := 1
  deriving DecidableEq, Repr

namespace DB

/-- The lookup `DB.First(&row, id)`; `none` is "record not found". -/
def First (db : DB) (id : Nat) : Option URLAnalysisResult :=
  db.rows.find? (fun r => r.ID == id)

/-- The lookup `DB.Where("url = ?", url).First(&row)`. -/
def FirstWhereURL (db : DB) (url : String) : Option URLAnalysisResult :=
  db.rows.find? (fun r => r.URL == url)

/-- The query `DB.Find(&rows, ids)`: the rows whose key is among `ids`.  With
an empty slice gorm adds no condition and the query returns every row. -/
def Find (db : DB) (ids : List Nat) : List URLAnalysisResult :=
  if ids.isEmpty then db.rows else db.rows.filter (fun r => ids.contains r.ID)

/-- The write `DB.Save(&row)`: every column of the row with this key is
overwritten; a row with a key the table does not have is inserted. -/
def Save (db : DB) (row : URLAnalysisResult) : DB :=
  if db.rows.any (fun r => r.ID == row.ID) then
    { db with rows := db.rows.map (fun r => if r.ID == row.ID then row else r) }
  else
    { rows := db.rows ++ [row], nextID := max db.nextID (row.ID + 1) }

/-- The insert `DB.Create(&row)`: the row gets the next key.  The insert fails
(`none`) on the unique index of `URL` and on a URL longer than the column
(`varchar(225)`). -/
def Create (db : DB) (row : URLAnalysisResult) : Option (DB × URLAnalysisResult) :=
  if db.rows.any (fun r => r.URL == row.URL) || decide (row.URL.length > 225) then none
  else
    let row := { row with ID := db.nextID }
    some ({ rows := db.rows ++ [row], nextID := db.nextID + 1 }, row)

end DB

/-! ## `services/crawler.go`: `ProcessURL` -/

/-- What `ProcessURL` does to the outside, in program order: a `DB.Save` of a
row, and the call of `CrawlURL`, which starts with the `http.Get` of the
page. -/
inductive Event where
  | save (row : URLAnalysisResult)
  | crawl (url : String)
  deriving DecidableEq, Repr

/-- Lines 33-56 of `ProcessURL`: the row after the result of `CrawlURL` has
been taken over. -/
def applyCrawl {U : Type} (lib : Lib U) (urlAnalysis : URLAnalysisResult) :
    Except String CrawlResult → URLAnalysisResult
  | .error err => { urlAnalysis with Status := "error", ErrorMessage := err }
  | .ok data =>
    { urlAnalysis with
      HTMLVersion := data.HTMLVersion
      PageTitle := data.PageTitle
      H1Count := data.H1Count
      H2Count := data.H2Count
      H3Count := data.H3Count
      H4Count := data.H4Count
      H5Count := data.H5Count
      H6Count := data.H6Count
      InternalLinks := data.InternalLinks
      ExternalLinks := data.ExternalLinks
      InaccessibleLinks := data.InaccessibleLinks
      InaccessibleLinkDetails :=
        if data.BrokenLinks.length > 0 then lib.jsonMarshal data.BrokenLinks
        else urlAnalysis.InaccessibleLinkDetails
      HasLoginForm := data.HasLoginForm
      Status := "done" }

/-- The function `ProcessURL(urlAnalysisID)`: the database afterwards and the
trace of its writes and of its crawl. -/
def ProcessURL {U : Type} (lib : Lib U) (net : Net) (db : DB) (urlAnalysisID : Nat) :
    DB × List Event :=
  match db.First urlAnalysisID with
  | none => (db, [])
  | some loaded =>
    let urlAnalysis := { loaded with Status := "running" }
    let db := db.Save urlAnalysis
    let final := applyCrawl lib urlAnalysis (CrawlURL lib net urlAnalysis.URL)
    (db.Save final, [Event.save urlAnalysis, Event.crawl urlAnalysis.URL, Event.save final])

/-! ## `controllers/url_analysis_controller.go` -/

/-- The request body of `CreateURLAnalysis`. -/
structure AddURLInput where
  URL : String
  deriving DecidableEq, Repr

/-- The request body of `RerunURLAnalyses`. -/
structure BulkActionInput where
  IDs : List Nat
  deriving DecidableEq, Repr

/-- What a handler leaves behind: the database, the `ProcessURL` calls it
dispatched with `go`, and the HTTP status of its answer. -/
structure Handled where
  db : DB
  dispatched : List Nat := []
  code : Nat
  deriving DecidableEq, Repr

/-- The handler `CreateURLAnalysis`; `input = none` is a body that
`ShouldBindJSON` rejects. -/
def CreateURLAnalysis (db : DB) (input : Option AddURLInput) : Handled :=
  match input with
  | none => { db := db, code := 400 }
  | some input =>
    match db.FirstWhereURL input.URL with
    | some _ => { db := db, code := 200 }
    | none =>
      match db.Create { URL := input.URL, Status := "queued" } with
      | none => { db := db, code := 500 }
      | some (db, urlAnalysis) => { db := db, dispatched := [urlAnalysis.ID], code := 202 }

/-- The loop of `RerunURLAnalyses` over the rows it loaded (lines 92-101). -/
def rerunLoop : List URLAnalysisResult → DB → List Nat → DB × List Nat
  | [], db, dispatched => (db, dispatched)
  | url :: rest, db, dispatched =>
    if url.Status != "running" && url.Status != "queued" then
      let url := { url with Status := "queued", ErrorMessage := "" }
      rerunLoop rest (db.Save url) (dispatched ++ [url.ID])
    else
      rerunLoop rest db dispatched

/-- The handler `RerunURLAnalyses`; `input = none` is a body that
`ShouldBindJSON` rejects. -/
def RerunURLAnalyses (db : DB) (input : Option BulkActionInput) : Handled :=
  match input with
  | none => { db := db, code := 400 }
  | some input =>
    let urls := db.Find input.IDs
    if urls.length == 0 then { db := db, code := 404 }
    else
      let out := rerunLoop urls db []
      { db := out.1, dispatched := out.2, code := 200 }

/-! ## The system: handlers and dispatched runs, one at a time -/

/-- The database together with the `ProcessURL` calls that were dispatched and
have not run yet. -/
structure Sys where
  db : DB := {}
  pending : List Nat := []
  deriving DecidableEq, Repr

/-- The states reachable from the empty store by `CreateURLAnalysis`,
`RerunURLAnalyses` and the runs of dispatched `ProcessURL` calls, each taken
as one step. -/
inductive Reachable {U : Type} (lib : Lib U) : Sys → Prop where
  | init : Reachable lib {}
  | create (s : Sys) (input : Option AddURLInput) :
      Reachable lib s →
      Reachable lib
        { db := (CreateURLAnalysis s.db input).db,
          pending := s.pending ++ (CreateURLAnalysis s.db input).dispatched }
  | rerun (s : Sys) (input : Option BulkActionInput) :
      Reachable lib s →
      Reachable lib
        { db := (RerunURLAnalyses s.db input).db,
          pending := s.pending ++ (RerunURLAnalyses s.db input).dispatched }
  | process (s : Sys) (net : Net) (id : Nat) :
      Reachable lib s → id ∈ s.pending →
      Reachable lib { db := (ProcessURL lib net s.db id).1, pending := s.pending.erase id }

/-! ## Reference notions for the statements -/

/-- The `href` of an anchor that the specification has classified: the
attribute is present, non-empty, and starts neither with `#` nor with
`javascript:`. -/
def classifiedHref (a : Node) : Option String :=
  match a.attrVal "href" with
  | none => none
  | some href =>
    if href ≠ "" ∧ HasPrefix href "#" = false ∧ HasPrefix href "javascript:" = false then
      some href
    else none

/-- The anchor is classified and its resolved URL has the page URL as a string
prefix. -/
def isInternalAnchor {U : Type} (lib : Lib U) (url : String) (a : Node) : Bool :=
  match classifiedHref a with
  | some href => HasPrefix (absoluteURL lib url href) url
  | none => false

/-- The anchor is classified and its resolved URL does not have the page URL
as a string prefix. -/
def isExternalAnchor {U : Type} (lib : Lib U) (url : String) (a : Node) : Bool :=
  match classifiedHref a with
  | some href => !HasPrefix (absoluteURL lib url href) url
  | none => false

/-- The resolved URLs of the classified anchors of the document, one for each
anchor, in document order. -/
def classifiedLinks {U : Type} (lib : Lib U) (url : String) (doc : Node) : List String :=
  (Find (.tag "a") doc).filterMap (fun a => (classifiedHref a).map (absoluteURL lib url))

/-- The broken-link entry the specification asks for a probe outcome: status
`0` for a transport error, the status for a response of `400` or more, no
entry otherwise. -/
def expectedEntry (link : String) : HeadOutcome → Option BrokenLink
  | .failed _ => some { URL := link, StatusCode := 0 }
  | .response StatusCode =>
    if 400 ≤ StatusCode then some { URL := link, StatusCode := StatusCode } else none

/-- Every value of the fan-in, received, buffered or still to be sent. -/
def FanIn.all (st : FanIn) : List BrokenLink :=
  st.BrokenLinks ++ (st.buf ++ st.senders)

/-- The number of steps the fan-in still takes: a send and a receive for a
value to be sent, a receive for a buffered value. -/
def FanIn.todo (st : FanIn) : Nat :=
  2 * st.senders.length + st.buf.length

/-- What a scheduling step from `st` to `st2` keeps: the values, the count of
values not yet received, the agreement of the counter with the list, and one
step less to do. -/
def FanIn.Keeps (st st2 : FanIn) : Prop :=
  st2.all.Perm st.all ∧
  (st2.InaccessibleLinks + (st2.buf.length + st2.senders.length) =
    st.InaccessibleLinks + (st.buf.length + st.senders.length)) ∧
  (st.InaccessibleLinks = st.BrokenLinks.length →
    st2.InaccessibleLinks = st2.BrokenLinks.length) ∧
  st2.todo = st.todo - 1

/-- The guard of the loop of `RerunURLAnalyses`: the job is neither running
nor queued. -/
def eligible (r : URLAnalysisResult) : Bool :=
  r.Status != "running" && r.Status != "queued"

/-- The row that the loop of `RerunURLAnalyses` saves for an eligible job. -/
def requeued (r : URLAnalysisResult) : URLAnalysisResult :=
  { r with Status := "queued", ErrorMessage := "" }

/-- A stand-in for `net/url`, `strings.ToLower` and `encoding/json`, used to
evaluate the model on concrete inputs: a reference that starts with `/` is
appended to the base without its last character, any other reference is taken
as absolute. -/
def Lib.demo : Lib String where
  urlParse := fun s => some s
  ResolveReference := fun base rel =>
    if HasPrefix rel "/" then String.mk (base.data.dropLast ++ rel.data) else rel
  urlString := fun u => u
  ToLower := fun s => String.mk (s.data.map Char.toLower)
  jsonMarshal := fun l => String.join (l.map (fun b => b.URL ++ " " ++ toString b.StatusCode ++ ";"))

/-- The page of the scenario: a doctype, and a body with the links `/x` and
`https://b.test/`, an anchor without `href` and a fragment link. -/
def Demo.page : Node :=
  .mk .DocumentNode "" [] [
    .mk .DoctypeNode "html" [] [],
    .mk .ElementNode "html" [] [
      .mk .ElementNode "head" [] [
        .mk .ElementNode "title" [] [.mk .TextNode "Home" [] []]],
      .mk .ElementNode "body" [] [
        .mk .ElementNode "a" [⟨"href", "/x"⟩] [.mk .TextNode "x" [] []],
        .mk .ElementNode "a" [⟨"href", "https://b.test/"⟩] [],
        .mk .ElementNode "a" [⟨"name", "top"⟩] [],
        .mk .ElementNode "a" [⟨"href", "#top"⟩] []]]]

/-- The network of the scenario: the page answers `200`, the probe of
`https://a.test/x` answers `404`, every other probe `200`. -/
def Demo.net : Net where
  Get := fun _ => .response 200 "200 OK" (.document Demo.page)
  Head := fun _ link => if link = "https://a.test/x" then .response 404 else .response 200
  sched := []

/-- A job that is done, with the metrics of a completed run. -/
def Demo.doneJob : URLAnalysisResult :=
  { ID := 1, URL := "https://a.test/", HTMLVersion := "HTML5", PageTitle := "Home",
    H1Count := 2, InternalLinks := 1, ExternalLinks := 1, InaccessibleLinks := 1,
    InaccessibleLinkDetails := "https://a.test/x 404;", HasLoginForm := true, Status := "done" }

/-- A job whose run failed. -/
def Demo.errorJob : URLAnalysisResult :=
  { ID := 2, URL := "https://b.test/", Status := "error",
    ErrorMessage := "non-OK status code: 500 500 Internal Server Error" }

/-- A job that waits for its run. -/
def Demo.queuedJob : URLAnalysisResult :=
  { ID := 3, URL := "https://c.test/", Status := "queued" }

/-- A job whose run is under way. -/
def Demo.runningJob : URLAnalysisResult :=
  { ID := 4, URL := "https://d.test/", Status := "running" }

/-- A table with one job in each status. -/
def Demo.db : DB :=
  { rows := [Demo.doneJob, Demo.errorJob, Demo.queuedJob, Demo.runningJob], nextID := 5 }

/-- The metrics of a row are cleared: the two strings and the broken-link
details are empty, the counts are `0` and there is no login form. -/
def metricsCleared (r : URLAnalysisResult) : Prop :=
  r.HTMLVersion = "" ∧ r.PageTitle = "" ∧
  r.H1Count = 0 ∧ r.H2Count = 0 ∧ r.H3Count = 0 ∧ r.H4Count = 0 ∧ r.H5Count = 0 ∧ r.H6Count = 0 ∧
  r.InternalLinks = 0 ∧ r.ExternalLinks = 0 ∧ r.InaccessibleLinks = 0 ∧
  r.InaccessibleLinkDetails = "" ∧ r.HasLoginForm = false

/-- The metrics of two rows agree, field by field. -/
def sameMetrics (r j : URLAnalysisResult) : Prop :=
  r.HTMLVersion = j.HTMLVersion ∧ r.PageTitle = j.PageTitle ∧
  r.H1Count = j.H1Count ∧ r.H2Count = j.H2Count ∧ r.H3Count = j.H3Count ∧
  r.H4Count = j.H4Count ∧ r.H5Count = j.H5Count ∧ r.H6Count = j.H6Count ∧
  r.InternalLinks = j.InternalLinks ∧ r.ExternalLinks = j.ExternalLinks ∧
  r.InaccessibleLinks = j.InaccessibleLinks ∧
  r.InaccessibleLinkDetails = j.InaccessibleLinkDetails ∧ r.HasLoginForm = j.HasLoginForm

/-- A network on which the page answers `204`. -/
def Demo.net204 : Net where
  Get := fun _ => .response 204 "204 No Content" (.failed "body not read")
  Head := fun _ _ => .response 200
  sched := []

/-- A network on which the page and every probe answer `200`. -/
def Demo.netOK : Net where
  Get := fun _ => .response 200 "200 OK" (.document Demo.page)
  Head := fun _ _ => .response 200
  sched := []

/-- The table after `https://a.test/` has been submitted. -/
def Demo.submitted : DB :=
  (CreateURLAnalysis {} (some { URL := "https://a.test/" })).db

/-- The table after the submitted job has run on the network of the scenario
(one broken link) and has then been re-run by `RerunURLAnalyses`. -/
def Demo.requeuedAfterRun : DB :=
  (RerunURLAnalyses (ProcessURL Lib.demo Demo.net Demo.submitted 1).1 (some { IDs := [1] })).db

/-- A page with a `title` in its head and an inline SVG that has a `title` of
its own. -/
def Demo.svgPage : Node :=
  .mk .DocumentNode "" [] [
    .mk .DoctypeNode "html" [] [],
    .mk .ElementNode "html" [] [
      .mk .ElementNode "head" [] [
        .mk .ElementNode "title" [] [.mk .TextNode "Home" [] []]],
      .mk .ElementNode "body" [] [
        .mk .ElementNode "svg" [] [
          .mk .ElementNode "title" [] [.mk .TextNode "Icon" [] []]]]]]

/-- A page with the HTML 4.01 strict doctype, as the HTML parser builds it:
the doctype node has the name `html` as its `Data` and carries the public and
the system identifier as the attributes `public` and `system`. -/
def Demo.legacyPage : Node :=
  .mk .DocumentNode "" [] [
    .mk .DoctypeNode "html"
      [⟨"public", "-//W3C//DTD HTML 4.01//EN"⟩,
       ⟨"system", "http://www.w3.org/TR/html4/strict.dtd"⟩] [],
    .mk .ElementNode "html" [] [
      .mk .ElementNode "head" [] [
        .mk .ElementNode "title" [] [.mk .TextNode "T" [] []]],
      .mk .ElementNode "body" [] []]]

/-- A network on which the page with the HTML 4.01 doctype answers `200`. -/
def Demo.legacyNet : Net where
  Get := fun _ => .response 200 "200 OK" (.document Demo.legacyPage)
  Head := fun _ _ => .response 200
  sched := []

/-- A network on which the page with the inline SVG answers `200`. -/
def Demo.svgNet : Net where
  Get := fun _ => .response 200 "200 OK" (.document Demo.svgPage)
  Head := fun _ _ => .response 200
  sched := []

/-- The four statuses of a job. -/
def validStatus (status : String) : Prop :=
  status = "queued" ∨ status = "running" ∨ status = "done" ∨ status = "error"

/-- The invariant of a stored job: its status is one of the four, and it has
an error message only in status `error`. -/
def RowOK (r : URLAnalysisResult) : Prop :=
  validStatus r.Status ∧ (r.ErrorMessage ≠ "" → r.Status = "error")

/-- The invariant of the system that makes `RowOK` inductive: every stored job
is `RowOK`; a job with a dispatched run is queued; no run is dispatched twice;
the keys are distinct and below the auto-increment counter, as are the
dispatched ids. -/
structure Inv (s : Sys) : Prop where
  rows : ∀ r ∈ s.db.rows, RowOK r
  pendingQueued : ∀ id ∈ s.pending, ∀ r ∈ s.db.rows, r.ID = id → r.Status = "queued"
  pendingNodup : s.pending.Nodup
  keys : (s.db.rows.map (fun r => r.ID)).Nodup
  rowsLt : ∀ r ∈ s.db.rows, r.ID < s.db.nextID
  pendingLt : ∀ id ∈ s.pending, id < s.db.nextID

/-- The system after `https://a.test/` has been submitted to the empty
store. -/
def Demo.sys1 : Sys :=
  { db := (CreateURLAnalysis ({} : Sys).db (some { URL := "https://a.test/" })).db,
    pending :=
      ({} : Sys).pending ++
        (CreateURLAnalysis ({} : Sys).db (some { URL := "https://a.test/" })).dispatched }

/-- The system after the dispatched run of job `1` has failed on a page that
answers `204`. -/
def Demo.sys2 : Sys :=
  { db := (ProcessURL Lib.demo Demo.net204 Demo.sys1.db 1).1,
    pending := Demo.sys1.pending.erase 1 }

/-! ## Link classification -/

theorem visitAnchor_eq {U : Type} (lib : Lib U) (url : String) (acc : LinkScan) (s : Node) :
    visitAnchor lib url acc s =
      match classifiedHref s with
      | none => acc
      | some href =>
        if HasPrefix (absoluteURL lib url href) url then
          { acc with InternalLinks := acc.InternalLinks + 1,
                     launched := acc.launched ++ [absoluteURL lib url href] }
        else
          { acc with ExternalLinks := acc.ExternalLinks + 1,
                     launched := acc.launched ++ [absoluteURL lib url href] } := by
  unfold visitAnchor classifiedHref
  cases s.attrVal "href" with
  | none => rfl
  | some href =>
    by_cases h1 : href = "" <;> by_cases h2 : HasPrefix href "#" = true <;>
      by_cases h3 : HasPrefix href "javascript:" = true <;> simp [h1, h2, h3]

theorem foldl_visitAnchor {U : Type} (lib : Lib U) (url : String) (l : List Node)
    (acc : LinkScan) :
    (l.foldl (visitAnchor lib url) acc).InternalLinks =
        acc.InternalLinks + (l.filter (isInternalAnchor lib url)).length ∧
    (l.foldl (visitAnchor lib url) acc).ExternalLinks =
        acc.ExternalLinks + (l.filter (isExternalAnchor lib url)).length ∧
    (l.foldl (visitAnchor lib url) acc).launched =
        acc.launched ++ l.filterMap (fun a => (classifiedHref a).map (absoluteURL lib url)) := by
  induction l generalizing acc with
  | nil => simp
  | cons a l ih =>
    rw [List.foldl_cons, visitAnchor_eq]
    cases h : classifiedHref a with
    | none =>
      have := ih acc
      simp [isInternalAnchor, isExternalAnchor, h, List.filter_cons, List.filterMap_cons, this]
    | some href =>
      by_cases hp : HasPrefix (absoluteURL lib url href) url = true
      · have := ih { acc with InternalLinks := acc.InternalLinks + 1,
                              launched := acc.launched ++ [absoluteURL lib url href] }
        simp [isInternalAnchor, isExternalAnchor, h, hp, List.filter_cons, List.filterMap_cons,
          this]
        omega
      · have := ih { acc with ExternalLinks := acc.ExternalLinks + 1,
                              launched := acc.launched ++ [absoluteURL lib url href] }
        simp [isInternalAnchor, isExternalAnchor, h, hp, List.filter_cons, List.filterMap_cons,
          this]
        omega

theorem Find_tagAttr (name key : String) (doc : Node) :
    Find (.tagAttr name key) doc =
      (Find (.tag name) doc).filter (fun a => a.Attr.any (fun x => x.Key == key)) := by
  unfold Find
  rw [List.filter_filter]
  congr 1
  funext n
  simp [Selector.isMatch, Bool.and_comm]

theorem classifiedHref_hasAttr (a : Node) (href : String) (h : classifiedHref a = some href) :
    a.Attr.any (fun x => x.Key == "href") = true := by
  unfold classifiedHref Node.attrVal at h
  cases hf : a.Attr.find? (fun x => x.Key == "href") with
  | none => simp [hf] at h
  | some x =>
    have hx := List.find?_some hf
    have hm := List.mem_of_find?_eq_some hf
    exact List.any_eq_true.mpr ⟨x, hm, hx⟩

theorem filter_filter_of_imp {α : Type} (p q : α → Bool) (l : List α)
    (h : ∀ a, p a = true → q a = true) : (l.filter q).filter p = l.filter p := by
  rw [List.filter_filter]
  congr 1
  funext a
  cases hp : p a with
  | false => simp
  | true => simp [h a hp]

theorem filterMap_filter_of_isSome {α β : Type} (f : α → Option β) (q : α → Bool) (l : List α)
    (h : ∀ a b, f a = some b → q a = true) : (l.filter q).filterMap f = l.filterMap f := by
  induction l with
  | nil => rfl
  | cons a l ih =>
    cases hq : q a with
    | true => simp [List.filter_cons, hq, List.filterMap_cons, ih]
    | false =>
      have : f a = none := by
        cases hf : f a with
        | none => rfl
        | some b => rw [h a b hf] at hq; cases hq
      simp [List.filter_cons, hq, List.filterMap_cons, ih, this]

theorem scanLinks_eq {U : Type} (lib : Lib U) (url : String) (doc : Node) :
    (scanLinks lib url doc).InternalLinks =
        ((Find (.tag "a") doc).filter (isInternalAnchor lib url)).length ∧
    (scanLinks lib url doc).ExternalLinks =
        ((Find (.tag "a") doc).filter (isExternalAnchor lib url)).length ∧
    (scanLinks lib url doc).launched = classifiedLinks lib url doc := by
  have h := foldl_visitAnchor lib url
    ((Find (.tag "a") doc).filter (fun a => a.Attr.any (fun x => x.Key == "href"))) {}
  have hi : ∀ a, isInternalAnchor lib url a = true →
      a.Attr.any (fun x => x.Key == "href") = true := by
    intro a ha
    unfold isInternalAnchor at ha
    cases hc : classifiedHref a with
    | none => simp [hc] at ha
    | some href => exact classifiedHref_hasAttr a href hc
  have he : ∀ a, isExternalAnchor lib url a = true →
      a.Attr.any (fun x => x.Key == "href") = true := by
    intro a ha
    unfold isExternalAnchor at ha
    cases hc : classifiedHref a with
    | none => simp [hc] at ha
    | some href => exact classifiedHref_hasAttr a href hc
  have hl : ∀ (a : Node) (b : String), (classifiedHref a).map (absoluteURL lib url) = some b →
      a.Attr.any (fun x => x.Key == "href") = true := by
    intro a b hb
    cases hc : classifiedHref a with
    | none => simp [hc] at hb
    | some href => exact classifiedHref_hasAttr a href hc
  rw [filter_filter_of_imp _ _ _ hi, filter_filter_of_imp _ _ _ he,
    filterMap_filter_of_isSome _ _ _ hl] at h
  unfold scanLinks classifiedLinks
  rw [Find_tagAttr]
  simpa using h

theorem internal_add_external {U : Type} (lib : Lib U) (url : String) (l : List Node) :
    (l.filter (isInternalAnchor lib url)).length + (l.filter (isExternalAnchor lib url)).length =
      (l.filter (fun a => (classifiedHref a).isSome)).length := by
  induction l with
  | nil => rfl
  | cons a l ih =>
    cases hc : classifiedHref a with
    | none => simp [List.filter_cons, isInternalAnchor, isExternalAnchor, hc, ih]
    | some href =>
      cases hp : HasPrefix (absoluteURL lib url href) url <;>
        simp [List.filter_cons, isInternalAnchor, isExternalAnchor, hc, hp] <;> omega

theorem CrawlURL_ok {U : Type} (lib : Lib U) (net : Net) (url status : String) (doc : Node)
    (hget : net.Get url = .response 200 status (.document doc)) :
    CrawlURL lib net url = .ok {
      HTMLVersion := htmlVersion lib doc
      PageTitle := (Find (.tag "title") doc).Text
      H1Count := (Find (.tag "h1") doc).Length
      H2Count := (Find (.tag "h2") doc).Length
      H3Count := (Find (.tag "h3") doc).Length
      H4Count := (Find (.tag "h4") doc).Length
      H5Count := (Find (.tag "h5") doc).Length
      H6Count := (Find (.tag "h6") doc).Length
      InternalLinks := (scanLinks lib url doc).InternalLinks
      ExternalLinks := (scanLinks lib url doc).ExternalLinks
      InaccessibleLinks :=
        (drain net.sched (probeAll net (scanLinks lib url doc).launched)).InaccessibleLinks
      BrokenLinks := (drain net.sched (probeAll net (scanLinks lib url doc).launched)).BrokenLinks
      HasLoginForm :=
        decide ((Find (.tagAttrEq "input" "type" "password") doc).Length > 0) } := by
  simp [CrawlURL, hget]

/-- C1: on a page that is fetched and parsed, `CrawlURL` counts every anchor
whose `href` is present, non-empty and starts neither with `#` nor with
`javascript:` exactly once, as internal when the resolved URL has the page URL
as a string prefix and as external otherwise, and counts no other anchor; so
`InternalLinks + ExternalLinks` is the number of such anchors. -/
theorem CrawlURL_link_counts {U : Type} (lib : Lib U) (net : Net) (url status : String)
    (doc : Node) (hget : net.Get url = .response 200 status (.document doc)) :
    ∃ r, CrawlURL lib net url = .ok r ∧
      r.InternalLinks = ((Find (.tag "a") doc).filter (isInternalAnchor lib url)).length ∧
      r.ExternalLinks = ((Find (.tag "a") doc).filter (isExternalAnchor lib url)).length ∧
      r.InternalLinks + r.ExternalLinks =
        ((Find (.tag "a") doc).filter (fun a => (classifiedHref a).isSome)).length := by
  refine ⟨_, CrawlURL_ok lib net url status doc hget, ?_, ?_, ?_⟩
  · exact (scanLinks_eq lib url doc).1
  · exact (scanLinks_eq lib url doc).2.1
  · show (scanLinks lib url doc).InternalLinks + (scanLinks lib url doc).ExternalLinks = _
    rw [(scanLinks_eq lib url doc).1, (scanLinks_eq lib url doc).2.1]
    exact internal_add_external lib url _

/-- C1, on the page of the scenario at `https://a.test/`: one internal and one
external link, two classified anchors out of four. -/
theorem CrawlURL_link_counts_witness :
    Demo.net.Get "https://a.test/" = .response 200 "200 OK" (.document Demo.page) ∧
    ((Find (.tag "a") Demo.page).filter (isInternalAnchor Lib.demo "https://a.test/")).length = 1 ∧
    ((Find (.tag "a") Demo.page).filter (isExternalAnchor Lib.demo "https://a.test/")).length = 1 ∧
    (Find (.tag "a") Demo.page).length = 4 ∧
    ∃ r, CrawlURL Lib.demo Demo.net "https://a.test/" = .ok r ∧
      r.InternalLinks = ((Find (.tag "a") Demo.page).filter
        (isInternalAnchor Lib.demo "https://a.test/")).length ∧
      r.ExternalLinks = ((Find (.tag "a") Demo.page).filter
        (isExternalAnchor Lib.demo "https://a.test/")).length ∧
      r.InternalLinks + r.ExternalLinks =
        ((Find (.tag "a") Demo.page).filter (fun a => (classifiedHref a).isSome)).length :=
  ⟨rfl, by decide, by decide, by decide,
    CrawlURL_link_counts Lib.demo Demo.net "https://a.test/" "200 OK" Demo.page rfl⟩

/-! ## The fan-in of the probes -/

theorem perm_cons_eraseIdx {α : Type} (l : List α) (k : Nat) (b : α) (h : l[k]? = some b) :
    (b :: l.eraseIdx k).Perm l ∧ (l.eraseIdx k).length + 1 = l.length := by
  induction l generalizing k with
  | nil => simp at h
  | cons a l ih =>
    cases k with
    | zero =>
      simp at h
      subst h
      simp
    | succ k =>
      simp at h
      have := ih k h
      refine ⟨?_, by simp [this.2]⟩
      simp only [List.eraseIdx_cons_succ]
      exact (List.Perm.swap a b _).trans (this.1.cons a)

theorem FanIn.recv_keeps (st : FanIn) : FanIn.Keeps st st.recv := by
  unfold FanIn.recv FanIn.Keeps
  cases hb : st.buf with
  | cons r rest =>
    refine ⟨?_, ?_, ?_, ?_⟩
    · simp [FanIn.all, hb]
    · simp; omega
    · intro h; simp [h]
    · simp [FanIn.todo, hb]
  | nil =>
    cases hs : st.senders with
    | nil => simp [FanIn.todo, hb, hs]
    | cons b rest =>
      refine ⟨?_, ?_, ?_, ?_⟩
      · simp [FanIn.all, hb, hs]
      · simp; omega
      · intro h; exact h
      · simp [FanIn.todo, hb, hs]; omega

theorem FanIn.step_keeps (k : Nat) (st : FanIn) : FanIn.Keeps st (st.step k) := by
  cases hk : st.senders[k]? with
  | none =>
    have : st.step k = st.recv := by simp [FanIn.step, hk]
    rw [this]; exact FanIn.recv_keeps st
  | some b =>
    by_cases hc : st.buf.length < errorLinkChanCap
    · have he := perm_cons_eraseIdx st.senders k b hk
      have hstep : st.step k =
          { st with senders := st.senders.eraseIdx k, buf := st.buf ++ [b] } := by
        simp [FanIn.step, hk, hc]
      rw [hstep]
      refine ⟨?_, ?_, ?_, ?_⟩
      · simp only [FanIn.all, List.append_assoc, List.singleton_append]
        exact (he.1.append_left st.buf).append_left st.BrokenLinks
      · simp; omega
      · intro h; exact h
      · simp [FanIn.todo]; omega
    · have : st.step k = st.recv := by simp [FanIn.step, hk, hc]
      rw [this]; exact FanIn.recv_keeps st

theorem FanIn.run_spec (fuel : Nat) (sched : List Nat) (st : FanIn) :
    (FanIn.run fuel sched st).all.Perm st.all ∧
    ((FanIn.run fuel sched st).InaccessibleLinks +
        ((FanIn.run fuel sched st).buf.length + (FanIn.run fuel sched st).senders.length) =
      st.InaccessibleLinks + (st.buf.length + st.senders.length)) ∧
    (st.InaccessibleLinks = st.BrokenLinks.length →
      (FanIn.run fuel sched st).InaccessibleLinks = (FanIn.run fuel sched st).BrokenLinks.length) ∧
    (FanIn.run fuel sched st).todo = st.todo - fuel := by
  induction fuel generalizing sched st with
  | zero => simp [FanIn.run]
  | succ fuel ih =>
    cases sched with
    | nil =>
      have h1 := FanIn.step_keeps 0 st
      have h2 := ih [] (st.step 0)
      simp only [FanIn.run]
      exact ⟨h2.1.trans h1.1, h2.2.1.trans h1.2.1, fun h => h2.2.2.1 (h1.2.2.1 h),
        by rw [h2.2.2.2, h1.2.2.2]; omega⟩
    | cons k sched =>
      have h1 := FanIn.step_keeps k st
      have h2 := ih sched (st.step k)
      simp only [FanIn.run]
      exact ⟨h2.1.trans h1.1, h2.2.1.trans h1.2.1, fun h => h2.2.2.1 (h1.2.2.1 h),
        by rw [h2.2.2.2, h1.2.2.2]; omega⟩

theorem drain_spec (sched : List Nat) (senders : List BrokenLink) :
    (drain sched senders).BrokenLinks.Perm senders ∧
    (drain sched senders).InaccessibleLinks = (drain sched senders).BrokenLinks.length ∧
    (drain sched senders).senders = [] ∧ (drain sched senders).buf = [] := by
  have h := FanIn.run_spec (2 * senders.length) sched { senders := senders }
  have htodo : (drain sched senders).todo = 0 := by
    have := h.2.2.2
    simp only [FanIn.todo, List.length_nil] at this
    unfold drain FanIn.todo
    omega
  have hs : (drain sched senders).senders = [] := by
    unfold FanIn.todo at htodo
    exact List.length_eq_zero.mp (by omega)
  have hb : (drain sched senders).buf = [] := by
    unfold FanIn.todo at htodo
    exact List.length_eq_zero.mp (by omega)
  refine ⟨?_, h.2.2.1 rfl, hs, hb⟩
  have hp := h.1
  unfold drain at hs hb
  simp only [FanIn.all, hs, hb, List.append_nil, List.nil_append] at hp
  exact hp

theorem probeAll_eq (net : Net) (links : List String) :
    probeAll net links =
      links.enum.filterMap (fun p => expectedEntry p.2 (net.Head p.1 p.2)) := by
  rfl

theorem length_classifiedLinks {U : Type} (lib : Lib U) (url : String) (doc : Node) :
    (classifiedLinks lib url doc).length =
      ((Find (.tag "a") doc).filter (fun a => (classifiedHref a).isSome)).length := by
  unfold classifiedLinks
  induction Find (.tag "a") doc with
  | nil => rfl
  | cons a l ih =>
    cases hc : classifiedHref a <;> simp [List.filterMap_cons, List.filter_cons, hc, ih]

/-- C2: on a page that is fetched and parsed, whatever the probes answer and
however they interleave, the `BrokenLinks` of `CrawlURL` are, up to order, one
entry for every classified anchor whose probe fails (status `0` for a
transport error, the status for a response of `400` or more) and none for a
probe answered below `400`; `InaccessibleLinks` is the number of entries and
is at most `InternalLinks + ExternalLinks`. -/
theorem CrawlURL_broken_links {U : Type} (lib : Lib U) (net : Net) (url status : String)
    (doc : Node) (hget : net.Get url = .response 200 status (.document doc)) :
    ∃ r, CrawlURL lib net url = .ok r ∧
      r.BrokenLinks.Perm
        ((classifiedLinks lib url doc).enum.filterMap
          (fun p => expectedEntry p.2 (net.Head p.1 p.2))) ∧
      r.InaccessibleLinks = r.BrokenLinks.length ∧
      r.InaccessibleLinks ≤ r.InternalLinks + r.ExternalLinks := by
  have hd := drain_spec net.sched (probeAll net (scanLinks lib url doc).launched)
  have hs := scanLinks_eq lib url doc
  have he : probeAll net (scanLinks lib url doc).launched =
      (classifiedLinks lib url doc).enum.filterMap
        (fun p => expectedEntry p.2 (net.Head p.1 p.2)) := by
    rw [probeAll_eq, hs.2.2]
  refine ⟨_, CrawlURL_ok lib net url status doc hget, hd.1.trans (List.Perm.of_eq he), hd.2.1, ?_⟩
  · show (drain net.sched (probeAll net (scanLinks lib url doc).launched)).InaccessibleLinks ≤
      (scanLinks lib url doc).InternalLinks + (scanLinks lib url doc).ExternalLinks
    rw [hd.2.1, hd.1.length_eq, hs.1, hs.2.1, internal_add_external lib url,
      ← length_classifiedLinks lib url, he]
    exact (List.length_filterMap_le _ _).trans (by simp)

/-- C2, on the scenario of the specification: of the links `/x` and
`https://b.test/` of the page at `https://a.test/` only the first, answered
with `404`, is reported. -/
theorem CrawlURL_broken_links_witness :
    Demo.net.Get "https://a.test/" = .response 200 "200 OK" (.document Demo.page) ∧
    (classifiedLinks Lib.demo "https://a.test/" Demo.page).enum.filterMap
        (fun p => expectedEntry p.2 (Demo.net.Head p.1 p.2)) =
      [{ URL := "https://a.test/x", StatusCode := 404 }] ∧
    ∃ r, CrawlURL Lib.demo Demo.net "https://a.test/" = .ok r ∧
      r.BrokenLinks.Perm
        ((classifiedLinks Lib.demo "https://a.test/" Demo.page).enum.filterMap
          (fun p => expectedEntry p.2 (Demo.net.Head p.1 p.2))) ∧
      r.InaccessibleLinks = r.BrokenLinks.length ∧
      r.InaccessibleLinks ≤ r.InternalLinks + r.ExternalLinks :=
  ⟨rfl, by decide,
    CrawlURL_broken_links Lib.demo Demo.net "https://a.test/" "200 OK" Demo.page rfl⟩

/-! ## The database -/

theorem find?_map_replace (rows : List URLAnalysisResult) (row : URLAnalysisResult) (id : Nat) :
    (rows.map (fun r => if r.ID == row.ID then row else r)).find? (fun r => r.ID == id) =
      if id = row.ID then (if rows.any (fun r => r.ID == row.ID) then some row else none)
      else rows.find? (fun r => r.ID == id) := by
  induction rows with
  | nil => simp
  | cons a rows ih =>
    rw [List.map_cons, List.find?_cons, List.any_cons, ih, List.find?_cons]
    by_cases h1 : a.ID = row.ID
    · have e1 : (a.ID == row.ID) = true := by simpa using h1
      by_cases h2 : id = row.ID
      · have e2 : (row.ID == id) = true := by simpa using h2.symm
        simp [e1, e2, h2]
      · have e2 : (row.ID == id) = false := by simpa using fun h3 => h2 h3.symm
        have e3 : (a.ID == id) = false := by rw [h1]; exact e2
        simp [e1, e2, e3, h2]
    · have e1 : (a.ID == row.ID) = false := by simpa using h1
      by_cases h2 : id = row.ID
      · have e3 : (a.ID == id) = false := by rw [h2]; exact e1
        simp [e1, e3, h2]
      · simp [e1, h2]

theorem DB.First_Save (db : DB) (row : URLAnalysisResult) (id : Nat) :
    (db.Save row).First id = if id = row.ID then some row else db.First id := by
  unfold DB.Save DB.First
  by_cases h : db.rows.any (fun r => r.ID == row.ID) = true
  · simp only [h, if_true, find?_map_replace]
  · simp only [h, Bool.false_eq_true, if_false, List.find?_append]
    by_cases h2 : id = row.ID
    · subst h2
      have : db.rows.find? (fun r => r.ID == row.ID) = none := by
        rw [List.find?_eq_none]
        intro x hx hx2
        exact h (List.any_eq_true.mpr ⟨x, hx, hx2⟩)
      simp [this]
    · have : (row.ID == id) = false := by simpa using fun h3 => h2 h3.symm
      simp [h2, List.find?_cons, this]

theorem DB.First_id (db : DB) (id : Nat) (row : URLAnalysisResult)
    (h : db.First id = some row) : row.ID = id ∧ row ∈ db.rows := by
  unfold DB.First at h
  exact ⟨by simpa using List.find?_some h, List.mem_of_find?_eq_some h⟩

theorem DB.First_of_mem (db : DB) (row : URLAnalysisResult)
    (hkey : (db.rows.map (fun r => r.ID)).Nodup) (h : row ∈ db.rows) :
    db.First row.ID = some row := by
  unfold DB.First
  generalize db.rows = rows at hkey h
  induction rows with
  | nil => simp at h
  | cons a rows ih =>
    rw [List.map_cons, List.nodup_cons] at hkey
    rw [List.find?_cons]
    by_cases ha : a = row
    · subst ha; simp
    · have hm : row ∈ rows := by
        cases h with
        | head => exact absurd rfl ha
        | tail _ h => exact h
      have hne : (a.ID == row.ID) = false := by
        have : a.ID ≠ row.ID := fun e =>
          hkey.1 (e ▸ List.mem_map.mpr ⟨row, hm, rfl⟩)
        simpa using this
      simp only [hne]
      exact ih hkey.2 hm

/-! ## Re-running jobs -/

theorem rerunLoop_cons (u : URLAnalysisResult) (rest : List URLAnalysisResult) (db : DB)
    (disp : List Nat) :
    rerunLoop (u :: rest) db disp =
      if eligible u = true then rerunLoop rest (db.Save (requeued u)) (disp ++ [u.ID])
      else rerunLoop rest db disp := rfl

theorem RerunURLAnalyses_found (db : DB) (ids : List Nat) (h : db.Find ids ≠ []) :
    RerunURLAnalyses db (some { IDs := ids }) =
      { db := (rerunLoop (db.Find ids) db []).1,
        dispatched := (rerunLoop (db.Find ids) db []).2, code := 200 } := by
  have : ¬ (db.Find ids).length = 0 := fun e => h (List.length_eq_zero.mp e)
  simp [RerunURLAnalyses, this]

theorem rerunLoop_dispatched (urls : List URLAnalysisResult) (db : DB) (disp : List Nat) :
    (rerunLoop urls db disp).2 = disp ++ (urls.filter eligible).map (fun r => r.ID) := by
  induction urls generalizing db disp with
  | nil => simp [rerunLoop]
  | cons u rest ih =>
    rw [rerunLoop_cons]
    by_cases he : eligible u = true
    · simp only [he, if_true, ih, List.filter_cons, List.map_cons, List.append_assoc,
        List.singleton_append]
    · rw [if_neg he, ih, List.filter_cons, if_neg he]

theorem rerunLoop_First (urls : List URLAnalysisResult) (db : DB) (disp : List Nat)
    (j : URLAnalysisResult) (huniq : ∀ u ∈ urls, u.ID = j.ID → u = j) :
    (rerunLoop urls db disp).1.First j.ID =
      if j ∈ urls ∧ eligible j = true then some (requeued j) else db.First j.ID := by
  induction urls generalizing db disp with
  | nil => simp [rerunLoop]
  | cons u rest ih =>
    have huniq2 : ∀ v ∈ rest, v.ID = j.ID → v = j :=
      fun v hv => huniq v (List.mem_cons_of_mem _ hv)
    rw [rerunLoop_cons]
    by_cases he : eligible u = true
    · rw [if_pos he, ih _ _ huniq2]
      by_cases hj : j ∈ rest ∧ eligible j = true
      · rw [if_pos hj, if_pos ⟨List.mem_cons_of_mem _ hj.1, hj.2⟩]
      · rw [if_neg hj, DB.First_Save]
        by_cases hid : j.ID = u.ID
        · have huj : u = j := huniq u (List.mem_cons_self _ _) hid.symm
          subst huj
          rw [if_pos (show u.ID = (requeued u).ID from rfl),
            if_pos ⟨List.mem_cons_self _ _, he⟩]
        · have hne : ¬ (j ∈ u :: rest ∧ eligible j = true) := by
            rintro ⟨hm, hel⟩
            cases hm with
            | head => exact hid rfl
            | tail _ hm => exact hj ⟨hm, hel⟩
          rw [if_neg hne]
          exact if_neg hid
    · rw [if_neg he, ih _ _ huniq2]
      by_cases hj : j ∈ rest ∧ eligible j = true
      · rw [if_pos hj, if_pos ⟨List.mem_cons_of_mem _ hj.1, hj.2⟩]
      · have hne : ¬ (j ∈ u :: rest ∧ eligible j = true) := by
          rintro ⟨hm, hel⟩
          cases hm with
          | head => exact he hel
          | tail _ hm => exact hj ⟨hm, hel⟩
        rw [if_neg hj, if_neg hne]

theorem DB.Find_sublist (db : DB) (ids : List Nat) : (db.Find ids).Sublist db.rows := by
  unfold DB.Find
  split
  · exact List.Sublist.refl _
  · exact List.filter_sublist _

theorem DB.mem_Find (db : DB) (ids : List Nat) (j : URLAnalysisResult) (hj : j ∈ db.rows)
    (hid : j.ID ∈ ids) : j ∈ db.Find ids := by
  unfold DB.Find
  split
  · exact hj
  · exact List.mem_filter.mpr ⟨hj, by simpa using hid⟩

/-- What `RerunURLAnalyses` does for a stored job of the batch, in a table
whose keys are distinct: the stored row and the number of dispatches. -/
theorem RerunURLAnalyses_job (db : DB) (ids : List Nat) (j : URLAnalysisResult)
    (hkey : (db.rows.map (fun r => r.ID)).Nodup) (hj : j ∈ db.rows) (hid : j.ID ∈ ids) :
    (RerunURLAnalyses db (some { IDs := ids })).db.First j.ID =
        (if eligible j = true then some (requeued j) else some j) ∧
    (RerunURLAnalyses db (some { IDs := ids })).dispatched.count j.ID =
        (if eligible j = true then 1 else 0) := by
  have hmem := DB.mem_Find db ids j hj hid
  have hsub := DB.Find_sublist db ids
  have hnodup : ((db.Find ids).map (fun r => r.ID)).Nodup := (hsub.map _).nodup hkey
  have huniq : ∀ u ∈ db.Find ids, u.ID = j.ID → u = j := by
    intro u hu hid2
    have h1 := DB.First_of_mem db u hkey (hsub.subset hu)
    have h2 := DB.First_of_mem db j hkey hj
    rw [hid2, h2] at h1
    exact (Option.some.inj h1).symm
  have hne : db.Find ids ≠ [] := fun h => by rw [h] at hmem; cases hmem
  rw [RerunURLAnalyses_found db ids hne]
  show (rerunLoop (db.Find ids) db []).1.First j.ID = _ ∧
    (rerunLoop (db.Find ids) db []).2.count j.ID = _
  rw [rerunLoop_First _ _ _ _ huniq, rerunLoop_dispatched, List.nil_append]
  constructor
  · by_cases he : eligible j = true
    · rw [if_pos ⟨hmem, he⟩, if_pos he]
    · rw [if_neg (fun h => he h.2), if_neg he]
      exact DB.First_of_mem db j hkey hj
  · by_cases he : eligible j = true
    · rw [if_pos he]
      have hin : j.ID ∈ ((db.Find ids).filter eligible).map (fun r => r.ID) :=
        List.mem_map.mpr ⟨j, List.mem_filter.mpr ⟨hmem, he⟩, rfl⟩
      have hnd : (((db.Find ids).filter eligible).map (fun r => r.ID)).Nodup :=
        ((List.filter_sublist _).map _).nodup hnodup
      exact List.count_eq_one_of_mem hnd hin
    · rw [if_neg he]
      apply List.count_eq_zero_of_not_mem
      intro hin
      obtain ⟨u, hu, hu2⟩ := List.mem_map.mp hin
      have hu3 := List.mem_filter.mp hu
      have := huniq u hu3.1 hu2
      rw [this] at hu3
      exact he hu3.2

theorem eligible_of_done_or_error (j : URLAnalysisResult)
    (h : j.Status = "done" ∨ j.Status = "error") : eligible j = true := by
  unfold eligible
  rcases h with h | h <;> rw [h] <;> decide

theorem not_eligible_of_queued_or_running (j : URLAnalysisResult)
    (h : j.Status = "queued" ∨ j.Status = "running") : ¬ eligible j = true := by
  unfold eligible
  rcases h with h | h <;> rw [h] <;> decide

/-- C3: for a batch of ids given to `RerunURLAnalyses` and a stored job of the
batch (in a table with distinct keys): a job that is done or in error is
stored with status `queued` and an empty `ErrorMessage`, its other fields
kept, and `ProcessURL` is dispatched for it exactly once; a job that is queued
or running is stored as before and nothing is dispatched for it. -/
theorem RerunURLAnalyses_spec (db : DB) (ids : List Nat) (j : URLAnalysisResult)
    (hkey : (db.rows.map (fun r => r.ID)).Nodup) (hj : j ∈ db.rows) (hid : j.ID ∈ ids) :
    ((j.Status = "done" ∨ j.Status = "error") →
      (RerunURLAnalyses db (some { IDs := ids })).db.First j.ID =
          some { j with Status := "queued", ErrorMessage := "" } ∧
      (RerunURLAnalyses db (some { IDs := ids })).dispatched.count j.ID = 1) ∧
    ((j.Status = "queued" ∨ j.Status = "running") →
      (RerunURLAnalyses db (some { IDs := ids })).db.First j.ID = some j ∧
      (RerunURLAnalyses db (some { IDs := ids })).dispatched.count j.ID = 0) := by
  have h := RerunURLAnalyses_job db ids j hkey hj hid
  constructor
  · intro hs
    have he := eligible_of_done_or_error j hs
    rw [if_pos he, if_pos he] at h
    exact h
  · intro hs
    have he := not_eligible_of_queued_or_running j hs
    rw [if_neg he, if_neg he] at h
    exact h

/-- C3, on a table with one job in each status and the batch `[1, 3, 9]`: the
done job `1` is requeued and dispatched once. -/
theorem RerunURLAnalyses_spec_witness :
    (RerunURLAnalyses Demo.db (some { IDs := [1, 3, 9] })).db.First Demo.doneJob.ID =
        some { Demo.doneJob with Status := "queued", ErrorMessage := "" } ∧
    (RerunURLAnalyses Demo.db (some { IDs := [1, 3, 9] })).dispatched.count Demo.doneJob.ID = 1 :=
  (RerunURLAnalyses_spec Demo.db [1, 3, 9] Demo.doneJob (by decide) (by decide) (by decide)).1
    (Or.inl rfl)

/-- C4 as stated fails: the done job `1`, re-run, is stored with status
`queued` and an empty `ErrorMessage`, and with the title, the counts, the
broken-link details and the login-form flag of its earlier run. -/
theorem RerunURLAnalyses_clears_metrics_counterexample :
    Demo.doneJob ∈ Demo.db.rows ∧ Demo.doneJob.Status = "done" ∧
    ∃ r, (RerunURLAnalyses Demo.db (some { IDs := [1] })).db.First 1 = some r ∧
      r.Status = "queued" ∧ r.ErrorMessage = "" ∧
      r.HTMLVersion = "HTML5" ∧ r.PageTitle = "Home" ∧ r.H1Count = 2 ∧
      r.InternalLinks = 1 ∧ r.ExternalLinks = 1 ∧ r.InaccessibleLinks = 1 ∧
      r.InaccessibleLinkDetails = "https://a.test/x 404;" ∧ r.HasLoginForm = true ∧
      ¬ metricsCleared r :=
  ⟨by decide, rfl, requeued Demo.doneJob, by decide, rfl, rfl, rfl, rfl, rfl, rfl, rfl, rfl, rfl,
    rfl, fun h => absurd h.2.1 (by decide)⟩

/-- C4, amended: when `RerunURLAnalyses` resets a job of the batch that is
done or in error (in a table with distinct keys), the stored row has status
`queued` and an empty `ErrorMessage`, and every metric of the job is as it
was before the reset. -/
theorem RerunURLAnalyses_keeps_metrics (db : DB) (ids : List Nat) (j : URLAnalysisResult)
    (hkey : (db.rows.map (fun r => r.ID)).Nodup) (hj : j ∈ db.rows) (hid : j.ID ∈ ids)
    (hs : j.Status = "done" ∨ j.Status = "error") :
    ∃ r, (RerunURLAnalyses db (some { IDs := ids })).db.First j.ID = some r ∧
      r.Status = "queued" ∧ r.ErrorMessage = "" ∧ sameMetrics r j := by
  have h := (RerunURLAnalyses_job db ids j hkey hj hid).1
  rw [if_pos (eligible_of_done_or_error j hs)] at h
  exact ⟨requeued j, h, rfl, rfl, rfl, rfl, rfl, rfl, rfl, rfl, rfl, rfl, rfl, rfl, rfl, rfl, rfl⟩

/-- C4, amended, on the done job `1` of the table with one job in each status,
whose metrics are those of a completed run. -/
theorem RerunURLAnalyses_keeps_metrics_witness :
    ∃ r, (RerunURLAnalyses Demo.db (some { IDs := [1, 4] })).db.First Demo.doneJob.ID = some r ∧
      r.Status = "queued" ∧ r.ErrorMessage = "" ∧ sameMetrics r Demo.doneJob :=
  RerunURLAnalyses_keeps_metrics Demo.db [1, 4] Demo.doneJob (by decide) (by decide) (by decide)
    (Or.inl rfl)

/-! ## Running a job -/

theorem append_ne_empty (a b : String) (h : a ≠ "") : a ++ b ≠ "" := by
  intro e
  apply h
  have hd : (a ++ b).data = [] := by rw [e]
  rw [String.data_append] at hd
  have ha : a.data = [] := (List.append_eq_nil.mp hd).1
  exact String.ext ha

theorem applyCrawl_ID {U : Type} (lib : Lib U) (row : URLAnalysisResult)
    (res : Except String CrawlResult) : (applyCrawl lib row res).ID = row.ID := by
  cases res <;> rfl

theorem ProcessURL_found {U : Type} (lib : Lib U) (net : Net) (db : DB) (id : Nat)
    (loaded : URLAnalysisResult) (h : db.First id = some loaded) :
    ProcessURL lib net db id =
      ((db.Save { loaded with Status := "running" }).Save
          (applyCrawl lib { loaded with Status := "running" } (CrawlURL lib net loaded.URL)),
        [Event.save { loaded with Status := "running" }, Event.crawl loaded.URL,
          Event.save
            (applyCrawl lib { loaded with Status := "running" } (CrawlURL lib net loaded.URL))]) := by
  simp [ProcessURL, h]

theorem ProcessURL_First {U : Type} (lib : Lib U) (net : Net) (db : DB) (id : Nat)
    (loaded : URLAnalysisResult) (h : db.First id = some loaded) :
    (ProcessURL lib net db id).1.First id =
      some (applyCrawl lib { loaded with Status := "running" } (CrawlURL lib net loaded.URL)) := by
  rw [ProcessURL_found lib net db id loaded h, DB.First_Save, applyCrawl_ID]
  exact if_pos (DB.First_id db id loaded h).1.symm

theorem CrawlURL_fetch_failure {U : Type} (lib : Lib U) (net : Net) (url : String)
    (hfail : (∃ err, net.Get url = .failed err) ∨
      ∃ code status body, net.Get url = .response code status body ∧ code ≠ 200) :
    ∃ msg, CrawlURL lib net url = .error msg ∧ msg ≠ "" := by
  rcases hfail with ⟨err, h⟩ | ⟨code, status, body, h, hcode⟩
  · exact ⟨"failed to fetch URL: " ++ err, by simp [CrawlURL, h],
      append_ne_empty _ _ (by decide)⟩
  · refine ⟨"non-OK status code: " ++ toString code ++ " " ++ status, by simp [CrawlURL, h, hcode],
      ?_⟩
    rw [String.append_assoc, String.append_assoc]
    exact append_ne_empty _ _ (by decide)

/-- C5: for a stored job whose primary fetch ends in a transport error or in a
response status other than `200`, `CrawlURL` returns a non-empty error and
`ProcessURL` leaves the job as it was loaded except for the status `error`
and that error as `ErrorMessage`; every metric keeps its value. -/
theorem ProcessURL_fetch_failure {U : Type} (lib : Lib U) (net : Net) (db : DB) (id : Nat)
    (job : URLAnalysisResult) (hjob : db.First id = some job)
    (hfail : (∃ err, net.Get job.URL = .failed err) ∨
      ∃ code status body, net.Get job.URL = .response code status body ∧ code ≠ 200) :
    ∃ msg, CrawlURL lib net job.URL = .error msg ∧ msg ≠ "" ∧
      (ProcessURL lib net db id).1.First id =
        some { job with Status := "error", ErrorMessage := msg } := by
  obtain ⟨msg, hmsg, hne⟩ := CrawlURL_fetch_failure lib net job.URL hfail
  refine ⟨msg, hmsg, hne, ?_⟩
  rw [ProcessURL_First lib net db id job hjob, hmsg]
  rfl

/-- C5, on a freshly submitted job whose page answers `204`: the job ends in
`error` with a message, and its metrics are those of the fresh job, all zero
or empty. -/
theorem ProcessURL_fetch_failure_witness :
    ∃ msg,
      CrawlURL Lib.demo Demo.net204 "https://a.test/" = .error msg ∧ msg ≠ "" ∧
      (ProcessURL Lib.demo Demo.net204 Demo.submitted 1).1.First 1 =
        some { ID := 1, URL := "https://a.test/", Status := "error", ErrorMessage := msg } :=
  ProcessURL_fetch_failure Lib.demo Demo.net204 Demo.submitted 1
    { ID := 1, URL := "https://a.test/", Status := "queued" } (by decide)
    (Or.inr ⟨204, "204 No Content", .failed "body not read", rfl, by decide⟩)

/-- What `ProcessURL` stores when `CrawlURL` succeeds: every field of the
result is taken over and the status is `done`; the broken-link details are the
encoding of the broken links when there are some, and otherwise the details
the job had before. -/
theorem ProcessURL_success {U : Type} (lib : Lib U) (net : Net) (db : DB) (id : Nat)
    (job : URLAnalysisResult) (r : CrawlResult) (hjob : db.First id = some job)
    (hok : CrawlURL lib net job.URL = .ok r) :
    (ProcessURL lib net db id).1.First id =
      some { job with
        HTMLVersion := r.HTMLVersion, PageTitle := r.PageTitle,
        H1Count := r.H1Count, H2Count := r.H2Count, H3Count := r.H3Count,
        H4Count := r.H4Count, H5Count := r.H5Count, H6Count := r.H6Count,
        InternalLinks := r.InternalLinks, ExternalLinks := r.ExternalLinks,
        InaccessibleLinks := r.InaccessibleLinks,
        InaccessibleLinkDetails :=
          if r.BrokenLinks.length > 0 then lib.jsonMarshal r.BrokenLinks
          else job.InaccessibleLinkDetails,
        HasLoginForm := r.HasLoginForm, Status := "done" } := by
  rw [ProcessURL_First lib net db id job hjob, hok]
  rfl

/-- C6 fails on a re-run: the job ran once with one broken link, was re-run by
`RerunURLAnalyses`, and its second crawl succeeds with no broken link; the
job ends `done` with `InaccessibleLinks = 0` and still carries the broken-link
details of its first run. -/
theorem ProcessURL_stale_details :
    Demo.requeuedAfterRun.First 1 =
      some { ID := 1, URL := "https://a.test/", HTMLVersion := "HTML5", PageTitle := "Home",
             InternalLinks := 1, ExternalLinks := 1, InaccessibleLinks := 1,
             InaccessibleLinkDetails := "https://a.test/x 404;", Status := "queued" } ∧
    (∃ r, CrawlURL Lib.demo Demo.netOK "https://a.test/" = .ok r ∧ r.BrokenLinks = [] ∧
      r.InaccessibleLinks = 0) ∧
    (ProcessURL Lib.demo Demo.netOK Demo.requeuedAfterRun 1).1.First 1 =
      some { ID := 1, URL := "https://a.test/", HTMLVersion := "HTML5", PageTitle := "Home",
             InternalLinks := 1, ExternalLinks := 1, InaccessibleLinks := 0,
             InaccessibleLinkDetails := "https://a.test/x 404;", Status := "done" } :=
  ⟨by decide, ⟨_, rfl, by decide, by decide⟩, by decide⟩

/-- C10: when no job has the id, `ProcessURL` leaves the database as it is and
neither writes nor crawls; otherwise its trace is the save of the loaded job
with status `running`, then the crawl of its URL, then one save of the same
job with a status that is `done` (when `CrawlURL` succeeded) or `error` (when
it failed), and the database is the result of these two saves. -/
theorem ProcessURL_trace {U : Type} (lib : Lib U) (net : Net) (db : DB) (id : Nat) :
    match db.First id with
    | none => ProcessURL lib net db id = (db, [])
    | some loaded =>
      ∃ final,
        (ProcessURL lib net db id).2 =
          [Event.save { loaded with Status := "running" }, Event.crawl loaded.URL,
            Event.save final] ∧
        (ProcessURL lib net db id).1 = (db.Save { loaded with Status := "running" }).Save final ∧
        final.ID = loaded.ID ∧ loaded.ID = id ∧
        ((final.Status = "done" ∧ ∃ r, CrawlURL lib net loaded.URL = .ok r) ∨
          (final.Status = "error" ∧ ∃ err, CrawlURL lib net loaded.URL = .error err)) := by
  cases h : db.First id with
  | none => simp [ProcessURL, h]
  | some loaded =>
    refine ⟨applyCrawl lib { loaded with Status := "running" } (CrawlURL lib net loaded.URL),
      ?_, ?_, applyCrawl_ID _ _ _, (DB.First_id db id loaded h).1, ?_⟩
    · rw [ProcessURL_found lib net db id loaded h]
    · rw [ProcessURL_found lib net db id loaded h]
    · cases hc : CrawlURL lib net loaded.URL with
      | error err => exact Or.inr ⟨rfl, err, rfl⟩
      | ok r => exact Or.inl ⟨rfl, r, rfl⟩

/-! ## Document type and title -/

theorem children_ne_nil_of_Find (sel : Selector) (doc : Node)
    (h : (Find sel doc).Length > 0) : doc.children ≠ [] := by
  intro e
  unfold Find Selection.Length at h
  rw [e] at h
  simp at h

/-- The label `CrawlURL` computes on a page that is fetched and parsed into a
document with an `html` element: it is read off the `Data` of the first child
of the document node, which for a doctype node is the name of the doctype
only. -/
theorem CrawlURL_htmlVersion {U : Type} (lib : Lib U) (net : Net) (url status : String)
    (doc : Node) (hget : net.Get url = .response 200 status (.document doc))
    (hhtml : (Find (.tag "html") doc).Length > 0) :
    ∃ r firstChild, CrawlURL lib net url = .ok r ∧ doc.children.head? = some firstChild ∧
      r.HTMLVersion =
        if Contains (lib.ToLower firstChild.Data) "html public" = true then "HTML 4.01 or XHTML"
        else if Contains (lib.ToLower firstChild.Data) "html" = true then "HTML5"
        else "Unknown" := by
  have hne := children_ne_nil_of_Find _ doc hhtml
  cases hc : doc.children with
  | nil => exact absurd hc hne
  | cons firstChild rest =>
    refine ⟨_, firstChild, CrawlURL_ok lib net url status doc hget, rfl, ?_⟩
    show htmlVersion lib doc = _
    have hlen : (Find (.tag "html") doc).First.Length > 0 := by
      unfold Selection.First Selection.Length
      unfold Selection.Length at hhtml
      rw [List.length_take]
      omega
    unfold htmlVersion
    rw [if_pos hlen, hc]

/-- C8 fails on a page with a legacy doctype: the first child of the document
is the doctype declaration of HTML 4.01 strict, with its public identifier,
the `Data` that `CrawlURL` inspects is the name `html` alone, and the page is
labelled `HTML5` where the claim has `HTML 4.01 or XHTML`. -/
theorem CrawlURL_htmlVersion_legacy_doctype :
    Demo.legacyPage.children.head? =
      some (.mk .DoctypeNode "html"
        [⟨"public", "-//W3C//DTD HTML 4.01//EN"⟩,
         ⟨"system", "http://www.w3.org/TR/html4/strict.dtd"⟩] []) ∧
    Contains (Lib.demo.ToLower "html") "html public" = false ∧
    ∃ r, CrawlURL Lib.demo Demo.legacyNet "https://a.test/" = .ok r ∧
      r.HTMLVersion = "HTML5" ∧ r.HTMLVersion ≠ "HTML 4.01 or XHTML" :=
  ⟨rfl, by decide, _, rfl, by decide, by decide⟩

/-- C9 fails on a page with a second `title`: the first `title` element of the
page reads `Home`, an inline SVG has the `title` `Icon`, and `CrawlURL`
returns the page title `HomeIcon`. -/
theorem CrawlURL_pageTitle_concatenates :
    (Find (.tag "title") Demo.svgPage).First.Text = "Home" ∧
    ∃ r, CrawlURL Lib.demo Demo.svgNet "https://a.test/" = .ok r ∧ r.PageTitle = "HomeIcon" :=
  ⟨by decide, _, rfl, by decide⟩

/-! ## The status invariant -/

theorem DB.Save_of_mem (db : DB) (row : URLAnalysisResult)
    (h : row.ID ∈ db.rows.map (fun r => r.ID)) :
    db.Save row =
      { db with rows := db.rows.map (fun r => if r.ID == row.ID then row else r) } := by
  have : db.rows.any (fun r => r.ID == row.ID) = true := by
    obtain ⟨r, hr, e⟩ := List.mem_map.mp h
    exact List.any_eq_true.mpr ⟨r, hr, by simpa using e⟩
  simp [DB.Save, this]

theorem map_ID_replace (rows : List URLAnalysisResult) (row : URLAnalysisResult) :
    (rows.map (fun r => if r.ID == row.ID then row else r)).map (fun r => r.ID) =
      rows.map (fun r => r.ID) := by
  rw [List.map_map]
  apply List.map_congr_left
  intro r _
  simp only [Function.comp]
  by_cases h : r.ID = row.ID <;> simp [h]

theorem mem_replace (rows : List URLAnalysisResult) (row r : URLAnalysisResult)
    (h : r ∈ rows.map (fun r => if r.ID == row.ID then row else r)) :
    r = row ∨ (r ∈ rows ∧ r.ID ≠ row.ID) := by
  obtain ⟨a, ha, e⟩ := List.mem_map.mp h
  by_cases hid : a.ID = row.ID
  · left
    simpa [hid] using e.symm
  · right
    have : r = a := by simpa [hid] using e.symm
    rw [this]
    exact ⟨ha, hid⟩

theorem mem_replace_of_ne (rows : List URLAnalysisResult) (row r : URLAnalysisResult)
    (h : r ∈ rows) (hne : r.ID ≠ row.ID) :
    r ∈ rows.map (fun r => if r.ID == row.ID then row else r) :=
  List.mem_map.mpr ⟨r, h, by simp [hne]⟩

theorem Inv.save {db : DB} {pending : List Nat} (hinv : Inv { db := db, pending := pending })
    (row : URLAnalysisResult) (hmem : row.ID ∈ db.rows.map (fun r => r.ID)) (hok : RowOK row)
    (hq : row.ID ∈ pending → row.Status = "queued") :
    Inv { db := db.Save row, pending := pending } := by
  rw [DB.Save_of_mem db row hmem]
  obtain ⟨a, ha, hida⟩ := List.mem_map.mp hmem
  refine ⟨?_, ?_, hinv.pendingNodup, ?_, ?_, hinv.pendingLt⟩
  · intro r hr
    rcases mem_replace _ _ _ hr with h | h
    · rw [h]; exact hok
    · exact hinv.rows r h.1
  · intro id hid r hr hrid
    rcases mem_replace _ _ _ hr with h | h
    · rw [h] at hrid ⊢
      exact hq (hrid ▸ hid)
    · exact hinv.pendingQueued id hid r h.1 hrid
  · show ((db.rows.map (fun r => if r.ID == row.ID then row else r)).map (fun r => r.ID)).Nodup
    rw [map_ID_replace]
    exact hinv.keys
  · intro r hr
    rcases mem_replace _ _ _ hr with h | h
    · rw [h]
      have := hinv.rowsLt a ha
      rw [hida] at this
      exact this
    · exact hinv.rowsLt r h.1

theorem Inv.erase {db : DB} {pending : List Nat} (hinv : Inv { db := db, pending := pending })
    (id : Nat) : Inv { db := db, pending := pending.erase id } :=
  ⟨hinv.rows, fun i hi => hinv.pendingQueued i (List.mem_of_mem_erase hi),
    hinv.pendingNodup.erase id, hinv.keys, hinv.rowsLt,
    fun i hi => hinv.pendingLt i (List.mem_of_mem_erase hi)⟩

theorem Inv.push {db : DB} {pending : List Nat} (hinv : Inv { db := db, pending := pending })
    (id : Nat) (hnew : id ∉ pending) (hq : ∀ r ∈ db.rows, r.ID = id → r.Status = "queued")
    (hlt : id < db.nextID) : Inv { db := db, pending := pending ++ [id] } := by
  refine ⟨hinv.rows, ?_, ?_, hinv.keys, hinv.rowsLt, ?_⟩
  · intro i hi r hr hri
    rcases List.mem_append.mp hi with h | h
    · exact hinv.pendingQueued i h r hr hri
    · rw [List.mem_singleton.mp h] at hri
      exact hq r hr hri
  · show (pending ++ [id]).Nodup
    rw [List.nodup_append]
    refine ⟨hinv.pendingNodup, List.nodup_singleton id, ?_⟩
    intro a ha hb
    rw [List.mem_singleton.mp hb] at ha
    exact hnew ha
  · intro i hi
    rcases List.mem_append.mp hi with h | h
    · exact hinv.pendingLt i h
    · rw [List.mem_singleton.mp h]; exact hlt

theorem DB.Create_cases (db : DB) (row : URLAnalysisResult) :
    db.Create row = none ∨
    db.Create row =
      some ({ rows := db.rows ++ [{ row with ID := db.nextID }], nextID := db.nextID + 1 },
        { row with ID := db.nextID }) := by
  unfold DB.Create
  by_cases h : (db.rows.any (fun r => r.URL == row.URL) || decide (row.URL.length > 225)) = true
  · left; rw [if_pos h]
  · right; rw [if_neg h]

theorem CreateURLAnalysis_cases (db : DB) (input : Option AddURLInput) :
    ((CreateURLAnalysis db input).db = db ∧ (CreateURLAnalysis db input).dispatched = []) ∨
    ∃ url,
      (CreateURLAnalysis db input).db =
        { rows := db.rows ++ [{ ID := db.nextID, URL := url, Status := "queued" }],
          nextID := db.nextID + 1 } ∧
      (CreateURLAnalysis db input).dispatched = [db.nextID] := by
  cases input with
  | none => exact Or.inl ⟨rfl, rfl⟩
  | some input =>
    cases hf : db.FirstWhereURL input.URL with
    | some found =>
      left
      simp only [CreateURLAnalysis, hf]
      exact ⟨trivial, trivial⟩
    | none =>
      rcases DB.Create_cases db { URL := input.URL, Status := "queued" } with hc | hc
      · left
        simp only [CreateURLAnalysis, hf, hc]
        exact ⟨trivial, trivial⟩
      · right
        refine ⟨input.URL, ?_⟩
        simp only [CreateURLAnalysis, hf, hc]
        exact ⟨trivial, trivial⟩

theorem Inv.create {s : Sys} (hinv : Inv s) (input : Option AddURLInput) :
    Inv { db := (CreateURLAnalysis s.db input).db,
          pending := s.pending ++ (CreateURLAnalysis s.db input).dispatched } := by
  rcases CreateURLAnalysis_cases s.db input with ⟨h1, h2⟩ | ⟨url, h1, h2⟩
  · rw [h1, h2, List.append_nil]; exact hinv
  · rw [h1, h2]
    have hfresh : ∀ r ∈ s.db.rows, r.ID ≠ s.db.nextID :=
      fun r hr => Nat.ne_of_lt (hinv.rowsLt r hr)
    refine ⟨?_, ?_, ?_, ?_, ?_, ?_⟩
    · intro r hr
      rcases List.mem_append.mp hr with h | h
      · exact hinv.rows r h
      · rw [List.mem_singleton.mp h]
        exact ⟨Or.inl rfl, fun hne => absurd rfl hne⟩
    · intro id hid r hr hrid
      rcases List.mem_append.mp hr with h | h
      · rcases List.mem_append.mp hid with h3 | h3
        · exact hinv.pendingQueued id h3 r h hrid
        · rw [List.mem_singleton.mp h3] at hrid
          exact absurd hrid (hfresh r h)
      · rw [List.mem_singleton.mp h]
    · show (s.pending ++ [s.db.nextID]).Nodup
      rw [List.nodup_append]
      refine ⟨hinv.pendingNodup, List.nodup_singleton _, ?_⟩
      intro a ha hb
      rw [List.mem_singleton.mp hb] at ha
      exact Nat.lt_irrefl _ (hinv.pendingLt _ ha)
    · show ((s.db.rows ++ [({ ID := s.db.nextID, URL := url, Status := "queued" } :
          URLAnalysisResult)]).map (fun r => r.ID)).Nodup
      rw [List.map_append, List.nodup_append]
      refine ⟨hinv.keys, List.nodup_singleton _, ?_⟩
      intro a ha hb
      obtain ⟨r, hr, e⟩ := List.mem_map.mp ha
      simp only [List.map_cons, List.map_nil, List.mem_singleton] at hb
      exact hfresh r hr (e.trans hb)
    · intro r hr
      show r.ID < s.db.nextID + 1
      rcases List.mem_append.mp hr with h | h
      · exact Nat.lt_succ_of_lt (hinv.rowsLt r h)
      · rw [List.mem_singleton.mp h]; exact Nat.lt_succ_self _
    · intro id hid
      show id < s.db.nextID + 1
      rcases List.mem_append.mp hid with h | h
      · exact Nat.lt_succ_of_lt (hinv.pendingLt id h)
      · rw [List.mem_singleton.mp h]; exact Nat.lt_succ_self _

theorem requeued_ok (u : URLAnalysisResult) : RowOK (requeued u) :=
  ⟨Or.inl rfl, fun hne => absurd rfl hne⟩

theorem Inv.rerunLoop (urls : List URLAnalysisResult) (db : DB) (pending disp : List Nat)
    (hinv : Inv { db := db, pending := pending ++ disp })
    (hnodup : (urls.map (fun r => r.ID)).Nodup) (hmem : ∀ u ∈ urls, u ∈ db.rows) :
    Inv { db := (rerunLoop urls db disp).1, pending := pending ++ (rerunLoop urls db disp).2 } := by
  induction urls generalizing db disp with
  | nil => exact hinv
  | cons u rest ih =>
    rw [List.map_cons, List.nodup_cons] at hnodup
    have hu : u ∈ db.rows := hmem u (List.mem_cons_self _ _)
    have hrest : ∀ v ∈ rest, v ∈ db.rows := fun v hv => hmem v (List.mem_cons_of_mem _ hv)
    rw [rerunLoop_cons]
    by_cases he : eligible u = true
    · rw [if_pos he]
      have huID : u.ID ∈ db.rows.map (fun r => r.ID) := List.mem_map.mpr ⟨u, hu, rfl⟩
      have hnotq : u.Status ≠ "queued" := by
        intro hq
        unfold eligible at he
        rw [hq] at he
        exact absurd he (by decide)
      have hnew : u.ID ∉ pending ++ disp :=
        fun hin => hnotq (hinv.pendingQueued u.ID hin u hu rfl)
      have h1 : Inv { db := db.Save (requeued u), pending := pending ++ disp } :=
        Inv.save hinv (requeued u) huID (requeued_ok u) (fun _ => rfl)
      have hrows : ∀ r ∈ (db.Save (requeued u)).rows, r.ID = u.ID → r.Status = "queued" := by
        intro r hr hrid
        rw [DB.Save_of_mem db (requeued u) huID] at hr
        rcases mem_replace _ _ _ hr with h | h
        · rw [h]; rfl
        · exact absurd hrid h.2
      have hlt : u.ID < (db.Save (requeued u)).nextID := by
        rw [DB.Save_of_mem db (requeued u) huID]
        exact hinv.rowsLt u hu
      have h2 := Inv.push h1 u.ID hnew hrows hlt
      rw [List.append_assoc] at h2
      apply ih _ _ h2 hnodup.2
      intro v hv
      rw [DB.Save_of_mem db (requeued u) huID]
      apply mem_replace_of_ne _ _ _ (hrest v hv)
      intro e
      exact hnodup.1 (List.mem_map.mpr ⟨v, hv, e⟩)
    · rw [if_neg he]
      exact ih _ _ hinv hnodup.2 hrest

theorem Inv.rerun {s : Sys} (hinv : Inv s) (input : Option BulkActionInput) :
    Inv { db := (RerunURLAnalyses s.db input).db,
          pending := s.pending ++ (RerunURLAnalyses s.db input).dispatched } := by
  cases input with
  | none =>
    show Inv { db := s.db, pending := s.pending ++ [] }
    rw [List.append_nil]; exact hinv
  | some input =>
    by_cases hne : s.db.Find input.IDs = []
    · have : RerunURLAnalyses s.db (some input) = { db := s.db, code := 404 } := by
        simp [RerunURLAnalyses, hne]
      rw [this]
      show Inv { db := s.db, pending := s.pending ++ [] }
      rw [List.append_nil]; exact hinv
    · rw [RerunURLAnalyses_found s.db input.IDs hne]
      have hsub := DB.Find_sublist s.db input.IDs
      apply Inv.rerunLoop
      · show Inv { db := s.db, pending := s.pending ++ [] }
        rw [List.append_nil]; exact hinv
      · exact (hsub.map _).nodup hinv.keys
      · exact fun u hu => hsub.subset hu

theorem applyCrawl_ok {U : Type} (lib : Lib U) (row : URLAnalysisResult)
    (res : Except String CrawlResult) (hmsg : row.ErrorMessage = "") :
    RowOK (applyCrawl lib row res) := by
  cases res with
  | error err => exact ⟨Or.inr (Or.inr (Or.inr rfl)), fun _ => rfl⟩
  | ok r => exact ⟨Or.inr (Or.inr (Or.inl rfl)), fun hne => absurd hmsg hne⟩

theorem Inv.running {s : Sys} (hinv : Inv s) (id : Nat) (hid : id ∈ s.pending)
    (loaded : URLAnalysisResult) (h : s.db.First id = some loaded) :
    loaded.ErrorMessage = "" ∧
    Inv { db := s.db.Save { loaded with Status := "running" }, pending := s.pending.erase id } := by
  have hl := DB.First_id s.db id loaded h
  have hq : loaded.Status = "queued" := hinv.pendingQueued id hid loaded hl.2 hl.1
  have hmsg : loaded.ErrorMessage = "" := by
    by_contra hne
    have := (hinv.rows loaded hl.2).2 hne
    rw [hq] at this
    exact absurd this (by decide)
  have hnot : id ∉ s.pending.erase id := fun hin =>
    ((List.Nodup.mem_erase_iff hinv.pendingNodup).mp hin).1 rfl
  refine ⟨hmsg, Inv.save (Inv.erase hinv id) _ ?_ ?_ ?_⟩
  · exact List.mem_map.mpr ⟨loaded, hl.2, rfl⟩
  · exact ⟨Or.inr (Or.inl rfl), fun hne => absurd hmsg hne⟩
  · intro hin
    have e : ({ loaded with Status := "running" } : URLAnalysisResult).ID = id := hl.1
    rw [e] at hin
    exact absurd hin hnot

theorem Inv.process {U : Type} {s : Sys} (hinv : Inv s) (lib : Lib U) (net : Net) (id : Nat)
    (hid : id ∈ s.pending) :
    Inv { db := (ProcessURL lib net s.db id).1, pending := s.pending.erase id } := by
  cases h : s.db.First id with
  | none =>
    have : ProcessURL lib net s.db id = (s.db, []) := by simp [ProcessURL, h]
    rw [this]
    exact Inv.erase hinv id
  | some loaded =>
    have hl := DB.First_id s.db id loaded h
    obtain ⟨hmsg, h1⟩ := Inv.running hinv id hid loaded h
    have hnot : id ∉ s.pending.erase id := fun hin =>
      ((List.Nodup.mem_erase_iff hinv.pendingNodup).mp hin).1 rfl
    rw [ProcessURL_found lib net s.db id loaded h]
    refine Inv.save h1 _ ?_ (applyCrawl_ok lib _ _ hmsg) ?_
    · rw [applyCrawl_ID, DB.Save_of_mem s.db { loaded with Status := "running" }
        (List.mem_map.mpr ⟨loaded, hl.2, rfl⟩)]
      show loaded.ID ∈ (s.db.rows.map (fun r =>
        if r.ID == loaded.ID then ({ loaded with Status := "running" } : URLAnalysisResult)
        else r)).map (fun r => r.ID)
      rw [map_ID_replace s.db.rows { loaded with Status := "running" }]
      exact List.mem_map.mpr ⟨loaded, hl.2, rfl⟩
    · intro hin
      rw [applyCrawl_ID] at hin
      have e : ({ loaded with Status := "running" } : URLAnalysisResult).ID = id := hl.1
      rw [e] at hin
      exact absurd hin hnot

theorem Inv.init : Inv {} :=
  ⟨fun _ h => (by cases h), fun _ h => (by cases h), List.nodup_nil, List.nodup_nil,
    fun _ h => (by cases h), fun _ h => (by cases h)⟩

theorem Reachable.inv {U : Type} {lib : Lib U} {s : Sys} (h : Reachable lib s) : Inv s := by
  induction h with
  | init => exact Inv.init
  | create s input _ ih => exact Inv.create ih input
  | rerun s input _ ih => exact Inv.rerun ih input
  | process s net id _ hid ih => exact Inv.process ih lib net id hid

/-- C7: in every state reachable from the empty store by `CreateURLAnalysis`,
`RerunURLAnalyses` and the runs of dispatched `ProcessURL` calls, taken one at
a time, every stored job has one of the statuses `queued`, `running`, `done`,
`error`, and has a non-empty `ErrorMessage` only in status `error`; the same
holds of the table as a dispatched `ProcessURL` writes it first, with the job
`running`. -/
theorem reachable_status_invariant {U : Type} (lib : Lib U) (s : Sys) (h : Reachable lib s) :
    (∀ r ∈ s.db.rows, validStatus r.Status ∧ (r.ErrorMessage ≠ "" → r.Status = "error")) ∧
    (∀ id ∈ s.pending, ∀ loaded, s.db.First id = some loaded →
      ∀ r ∈ (s.db.Save { loaded with Status := "running" }).rows,
        validStatus r.Status ∧ (r.ErrorMessage ≠ "" → r.Status = "error")) :=
  ⟨h.inv.rows, fun id hid loaded hl => (Inv.running h.inv id hid loaded hl).2.rows⟩

theorem Demo.sys2_reachable : Reachable Lib.demo Demo.sys2 :=
  Reachable.process Demo.sys1 Demo.net204 1
    (Reachable.create {} (some { URL := "https://a.test/" }) Reachable.init) (by decide)

/-- C7, on the state reached by submitting `https://a.test/` and running the
job on a page that answers `204`: the stored job is in status `error`, with
its message. -/
theorem reachable_status_invariant_witness :
    Reachable Lib.demo Demo.sys2 ∧
    Demo.sys2.db.rows =
      [{ ID := 1, URL := "https://a.test/", Status := "error",
         ErrorMessage := "non-OK status code: 204 204 No Content" }] ∧
    ((∀ r ∈ Demo.sys2.db.rows,
        validStatus r.Status ∧ (r.ErrorMessage ≠ "" → r.Status = "error")) ∧
      (∀ id ∈ Demo.sys2.pending, ∀ loaded, Demo.sys2.db.First id = some loaded →
        ∀ r ∈ (Demo.sys2.db.Save { loaded with Status := "running" }).rows,
          validStatus r.Status ∧ (r.ErrorMessage ≠ "" → r.Status = "error"))) :=
  ⟨Demo.sys2_reachable, by decide,
    reachable_status_invariant Lib.demo Demo.sys2 Demo.sys2_reachable⟩

end Crawler
